import Mathlib

/-!
Verification development for the speech activity detection application
(`src/pyannote/audio/applications/speech_detection.py`).

The embedding covers the validation loop: the pipeline configuration built in
`validate_epoch`, the objective function `fun` (fresh `DetectionErrorRate`
accumulator per call, one parallel map over the validation files), the bounded
scalar minimizer called with `bounds=(0., 1.)` and `options={'maxiter': 10}`,
the metadata written by `apply`, the worker pool created in `validate_init`,
and the epoch watcher driving `validate_epoch` once per discovered epoch.

Components whose code lives outside `src/` (the epoch watcher of
`applications/base.py`, the scipy bounded minimizer, the
`pyannote.metrics` DetectionErrorRate aggregation) are modelled from the
spec, as marked in their doc comments.
-/

/-- Pipeline configuration: the six scalar parameters of the dictionary
passed to `pipeline.instantiate({...})` in `validate_epoch`
(lines 258-263 and 279-284 of the source). -/
structure PipelineParams where
  onset : ℚ
  offset : ℚ
  min_duration_on : ℚ
  min_duration_off : ℚ
  pad_onset : ℚ
  pad_offset : ℚ
deriving DecidableEq

/-- The exact dictionary `validate_epoch` builds for a candidate threshold:
onset and offset both equal to the threshold, the four remaining parameters 0
(source lines 258-263, repeated at 279-284 for the returned pipeline). -/
def sadParams (threshold : ℚ) : PipelineParams :=
  { onset := threshold
    offset := threshold
    min_duration_on := 0
    min_duration_off := 0
    pad_onset := 0
    pad_offset := 0 }

/-- Modelled from the spec: the per-file contribution of the black-box
`DetectionErrorRate` metric (`pyannote.metrics.detection`, not under `src/`):
false-alarm duration, missed-detection duration and total reference speech
duration, per the glossary entry for Detection Error Rate. -/
structure DERComponents where
  falseAlarm : ℚ
  missedDetection : ℚ
  total : ℚ
deriving DecidableEq

/-- Modelled from the spec: the accumulator of a freshly constructed
`DetectionErrorRate(parallel=True)` instance starts with every component 0. -/
def accumZero : DERComponents := ⟨0, 0, 0⟩

/-- Modelled from the spec: each scored file adds its components into the
metric's accumulator (associative/commutative componentwise sums, §5). -/
def accumAdd (a c : DERComponents) : DERComponents :=
  ⟨a.falseAlarm + c.falseAlarm,
   a.missedDetection + c.missedDetection,
   a.total + c.total⟩

/-- Modelled from the spec: `abs(metric)` = (false-alarm duration +
missed-detection duration) / total reference speech duration, computed on the
accumulated components ("summed across files then divided"). -/
def metricAbs (a : DERComponents) : ℚ :=
  (a.falseAlarm + a.missedDetection) / a.total

/-- Accumulation of the per-file components of one `pool_.map` call into a
fresh metric accumulator, in completion order. -/
def metricAccumulate (l : List DERComponents) : DERComponents :=
  l.foldl accumAdd accumZero

/-- The aggregate scalar the parallel evaluator produces for one candidate
threshold: accumulate every per-file contribution, then take `abs(metric)`. -/
def aggregateDER (l : List DERComponents) : ℚ :=
  metricAbs (metricAccumulate l)

/-- The average of per-file rates: what the aggregation would be if the code
averaged `metric(reference, hypothesis, uem)` values instead of accumulating
components.  Used to state that the code does NOT compute this. -/
def averageRate (l : List DERComponents) : ℚ :=
  (l.map metricAbs).sum / (l.length : ℚ)

/-- `validate_helper_func` (source lines 186-190): score one file with the
instantiated pipeline and the metric.  The black-box per-file evaluation
(pipeline hypothesis + metric components) is abstracted by `scorer`. -/
def validate_helper_func {α : Type} (scorer : PipelineParams → α → DERComponents)
    (p : PipelineParams) (current_file : α) : DERComponents :=
  scorer p current_file

/-- The objective `fun` defined inside `validate_epoch` (lines 257-270):
instantiate the pipeline at the candidate threshold, build a fresh
`DetectionErrorRate(parallel=True)` metric, run one parallel map over the
validation files, and return `abs(metric)`. -/
def fun_ {α : Type} (scorer : PipelineParams → α → DERComponents) (files : List α)
    (threshold : ℚ) : ℚ :=
  aggregateDER (files.map (validate_helper_func scorer (sadParams threshold)))

/-- The cross-call state visible to `fun`: the shared pipeline object (mutated
by `pipeline.instantiate`) and the most recently created metric accumulator.
Only the pipeline survives between calls in the source; the metric is rebound
to a fresh instance at every call. -/
structure FunCallState where
  pipeline : PipelineParams
  metricAcc : DERComponents
deriving DecidableEq

/-- One call of `fun` with its object state made explicit: the pipeline is
re-instantiated at the candidate threshold and the metric starts from a fresh
accumulator (`metric = DetectionErrorRate(parallel=True)`, line 264), never
from `st.metricAcc`. -/
def funCall {α : Type} (scorer : PipelineParams → α → DERComponents) (files : List α)
    (st : FunCallState) (threshold : ℚ) : FunCallState × ℚ :=
  let p := sadParams threshold
  let acc := metricAccumulate (files.map (validate_helper_func scorer p))
  (⟨p, acc⟩, metricAbs acc)

/-- A sequence of `fun` calls (the optimizer's candidate thresholds, in
order), threading the object state from call to call as the source does. -/
def runCalls {α : Type} (scorer : PipelineParams → α → DERComponents) (files : List α) :
    FunCallState → List ℚ → List ℚ
  | _, [] => []
  | st, threshold :: rest =>
      (funCall scorer files st threshold).2 ::
        runCalls scorer files (funCall scorer files st threshold).1 rest

/-- State of the bounded scalar minimizer: current bracket `[a, b]`, best
point `xf` with its objective value `fx`, and the list of every objective
evaluation performed so far (newest first), each entry being a pair
(point, objective value at that point). -/
structure OptState where
  a : ℚ
  b : ℚ
  xf : ℚ
  fx : ℚ
  evals : List (ℚ × ℚ)
deriving DecidableEq

/-- Modelled from the spec: the absolute convergence tolerance of the bounded
minimizer (`scipy.optimize.minimize_scalar(..., method='bounded')`, not under
`src/`), below which the bracket is considered converged. -/
def xatol : ℚ := 1 / 100000

/-- Modelled from the spec: the golden-section probe of the bounded minimizer
(§4.2, a golden-section/Brent-style bracketing search).  The probe is placed
a golden fraction into the larger of the two subintervals around the current
best point; 8/21 and 13/21 are the rational golden-section fractions. -/
def probe (s : OptState) : ℚ :=
  if s.b - s.xf ≤ s.xf - s.a then s.a + (s.xf - s.a) * (13 / 21)
  else s.xf + (s.b - s.xf) * (8 / 21)

/-- Modelled from the spec: one iteration of the bounded minimizer: evaluate
the objective at the probe point (recording the evaluation), keep whichever of
the probe and the incumbent is better as the new best point, and shrink the
bracket around it. -/
def optStep (f : ℚ → ℚ) (s : OptState) : OptState :=
  if f (probe s) ≤ s.fx then
    { a := if probe s < s.xf then s.a else s.xf
      b := if probe s < s.xf then s.xf else s.b
      xf := probe s
      fx := f (probe s)
      evals := (probe s, f (probe s)) :: s.evals }
  else
    { a := if probe s < s.xf then probe s else s.a
      b := if probe s < s.xf then s.b else probe s
      xf := s.xf
      fx := s.fx
      evals := (probe s, f (probe s)) :: s.evals }

/-- Modelled from the spec: the minimizer's iteration loop, fuelled by the
remaining iteration budget and stopping early once the bracket has shrunk to
the convergence tolerance. -/
def optLoop (f : ℚ → ℚ) : ℕ → OptState → OptState
  | 0, s => s
  | n + 1, s => if s.b - s.a ≤ xatol then s else optLoop f n (optStep f s)

/-- Modelled from the spec: `scipy.optimize.minimize_scalar(fun, bounds=(lo, hi),
method='bounded', options={'maxiter': maxiter})` (§4.2; the scipy code is not
under `src/`).  The first objective evaluation happens at the golden-section
point of the initial bracket and counts against the iteration budget, so at
most `maxiter` evaluations are performed in total; `evals` records every one.
The result carries the best point `xf` and its value `fx` (`res.x`,
`res.fun`). -/
def minimize_scalar_bounded (f : ℚ → ℚ) (lo hi : ℚ) (maxiter : ℕ) : OptState :=
  optLoop f (maxiter - 1)
    { a := lo
      b := hi
      xf := lo + (hi - lo) * (8 / 21)
      fx := f (lo + (hi - lo) * (8 / 21))
      evals := [(lo + (hi - lo) * (8 / 21), f (lo + (hi - lo) * (8 / 21)))] }

/-- The dictionary returned by `validate_epoch` (source lines 277-284):
metric name, direction, best value found, and the pipeline instantiated at
the best threshold `res.x`. -/
structure ValidationResult where
  metric : String
  minimize : Bool
  value : ℚ
  pipeline : PipelineParams
deriving DecidableEq

/-- `validate_epoch` (source lines 236-284): run the bounded minimizer on the
objective over `bounds=(0., 1.)` with `maxiter=10`, then return the single
result dictionary.  Model scoring (`sequence_labeling`, lines 243-253) is
folded into `scorer`, which maps a pipeline configuration and a file to that
file's metric components. -/
def validate_epoch {α : Type} (scorer : PipelineParams → α → DERComponents)
    (files : List α) : ValidationResult :=
  { metric := "detection_error_rate"
    minimize := true
    value := (minimize_scalar_bounded (fun_ scorer files) 0 1 10).fx
    pipeline := sadParams (minimize_scalar_bounded (fun_ scorer files) 0 1 10).xf }

/-- Every pipeline configuration `validate_epoch` instantiates, in order: one
per objective evaluation of the optimizer (line 258, `pipeline.instantiate`
inside `fun`), plus the final instantiation at the returned threshold
(line 279). -/
def validate_epoch_instantiations {α : Type} (scorer : PipelineParams → α → DERComponents)
    (files : List α) : List PipelineParams :=
  (minimize_scalar_bounded (fun_ scorer files) 0 1 10).evals.map (fun e => sadParams e.1)
    ++ [sadParams (minimize_scalar_bounded (fun_ scorer files) 0 1 10).xf]

/-- The root metadata record `apply` writes to the output store
(`Precomputed(root_dir=output_dir, sliding_window=sliding_window,
dimension=n_classes)`, source lines 310-313): the sliding-window geometry and
the dimension. -/
structure PrecomputedMeta where
  window_duration : ℚ
  window_step : ℚ
  dimension : ℕ
deriving DecidableEq

/-- The step `apply` computes from its `step` argument (source lines 292-293):
`if step is None: step = 0.25 * duration`. -/
def apply_configured_step (duration : ℚ) (step : Option ℚ) : ℚ :=
  match step with
  | none => 1 / 4 * duration
  | some s => s

/-- The metadata `apply` actually writes (source lines 286-327).  The
`SequenceLabeling` constructor is called with `step=.25 * duration`
(line 302) — the literal expression, not the local `step` computed at
lines 292-293 — so the sliding window of the output store always has step
`0.25 * duration`, whatever `step` was provided. -/
def apply (duration : ℚ) (n_classes : ℕ) (step : Option ℚ) : PrecomputedMeta :=
  { window_duration := duration
    window_step := 1 / 4 * duration
    dimension := n_classes }

/-- Modelled from the spec: the inner wait-and-process loop of the epoch
watcher (`Application.validate` of `applications/base.py`, not under `src/`;
§4.4): with `in_order=True` the driver processes the next target epoch as
soon as its checkpoint is available, advancing the target by `every`, and
otherwise keeps waiting.  `fuel` bounds the number of consecutive epochs
processed in one poll (the available-checkpoint list length suffices). -/
def drain (every : ℕ) (avail : List ℕ) : ℕ → ℕ → List ℕ
  | _, 0 => []
  | target, fuel + 1 =>
      if target ∈ avail then target :: drain every avail (target + every) fuel
      else []

/-- Modelled from the spec: the epoch watcher with `in_order=True` (§4.4;
`Application.validate` of `applications/base.py` is not under `src/`).  Each
element of `arrivals` is a checkpoint becoming available; after each arrival
the driver processes, in increasing order, every target epoch
(start, start+every, ...) whose checkpoint is now available.  The returned
list is the sequence of processed epochs. -/
def runDriver (every : ℕ) : List ℕ → List ℕ → ℕ → List ℕ
  | [], _, _ => []
  | a :: rest, avail, target =>
      drain every (a :: avail) target (a :: avail).length ++
        runDriver every rest (a :: avail)
          (target + every * (drain every (a :: avail) target (a :: avail).length).length)

/-- Modelled from the spec: one validation session's reports (§4.4, §3): the
driver invokes `validate_epoch` once per processed epoch and emits the epoch
together with the returned result. -/
def sessionReports {α : Type} (scorer : ℕ → PipelineParams → α → DERComponents)
    (files : List α) (every start : ℕ) (arrivals : List ℕ) :
    List (ℕ × ValidationResult) :=
  (runDriver every arrivals [] start).map (fun e => (e, validate_epoch (scorer e) files))

/-- Observable worker-pool actions: creating a pool of a given size
(`mp.Pool(mp.cpu_count())`) or submitting a parallel map to the pool recorded
in the application state (`self.pool_.map`). -/
inductive PoolEvent where
  | create (size : ℕ)
  | use (pool : Option ℕ)
deriving DecidableEq

/-- Whether a pool event is a pool creation. -/
def PoolEvent.isCreate : PoolEvent → Bool
  | .create _ => true
  | .use _ => false

/-- The application state relevant to the pool: `self.pool_`, absent until
`validate_init` assigns it. -/
structure AppState where
  pool : Option ℕ
deriving DecidableEq

/-- `validate_init` (source lines 218-234): assigns
`self.pool_ = mp.Pool(mp.cpu_count())`, the only pool creation of the
session.  `cpu_count` stands for `mp.cpu_count()`. -/
def validate_init (cpu_count : ℕ) (st : AppState) : AppState × List PoolEvent :=
  ({ pool := some cpu_count }, [PoolEvent.create cpu_count])

/-- The pool events of one `validate_epoch` call: each objective evaluation
performs exactly one `self.pool_.map(validate, validation_data)` (line 268)
against the pool held in the application state. -/
def validateEpochPoolEvents {α : Type} (st : AppState)
    (scorer : PipelineParams → α → DERComponents) (files : List α) : List PoolEvent :=
  (minimize_scalar_bounded (fun_ scorer files) 0 1 10).evals.map
    (fun _ => PoolEvent.use st.pool)

/-- Modelled from the spec: the pool events of a whole validation session
(§5; the session driver `Application.validate` of `applications/base.py` is
not under `src/`): one `validate_init`, then one `validate_epoch` per epoch
the watcher processes, every epoch reading the same application state. -/
def validateSessionEvents {α : Type} (cpu_count : ℕ)
    (scorer : ℕ → PipelineParams → α → DERComponents) (files : List α)
    (every start : ℕ) (arrivals : List ℕ) : List PoolEvent :=
  (validate_init cpu_count { pool := none }).2 ++
    ((runDriver every arrivals [] start).map
      (fun e => validateEpochPoolEvents (validate_init cpu_count { pool := none }).1
        (scorer e) files)).flatten

/-- The bracket-and-best invariant of the bounded minimizer: the bracket stays
inside `[lo, hi]` around the best point, the best value is the objective at
the best point, the best pair was evaluated, and no evaluation beat it. -/
def OptInv (lo hi : ℚ) (f : ℚ → ℚ) (s : OptState) : Prop :=
  lo ≤ s.a ∧ s.a ≤ s.xf ∧ s.xf ≤ s.b ∧ s.b ≤ hi ∧
    s.fx = f s.xf ∧ (s.xf, s.fx) ∈ s.evals ∧ ∀ p ∈ s.evals, s.fx ≤ p.2

theorem probe_bounds (s : OptState) (h1 : s.a ≤ s.xf) (h2 : s.xf ≤ s.b) :
    s.a ≤ probe s ∧ probe s ≤ s.b := by
  unfold probe
  split_ifs with h
  · constructor <;> linarith
  · constructor <;> linarith

theorem optStep_inv {lo hi : ℚ} {f : ℚ → ℚ} {s : OptState} (h : OptInv lo hi f s) :
    OptInv lo hi f (optStep f s) := by
  obtain ⟨h1, h2, h3, h4, h5, h6, h7⟩ := h
  obtain ⟨hp1, hp2⟩ := probe_bounds s h2 h3
  unfold OptInv optStep
  split_ifs with hfu hu hu
  · refine ⟨by linarith, by linarith, by linarith, by linarith, rfl,
      List.mem_cons_self _ _, ?_⟩
    intro p hp
    rcases List.mem_cons.1 hp with h | h
    · subst h; exact le_refl _
    · exact le_trans hfu (h7 p h)
  · refine ⟨by linarith, by push_neg at hu; linarith, by linarith, by linarith, rfl,
      List.mem_cons_self _ _, ?_⟩
    intro p hp
    rcases List.mem_cons.1 hp with h | h
    · subst h; exact le_refl _
    · exact le_trans hfu (h7 p h)
  · refine ⟨by linarith, by linarith, by linarith, by linarith, h5,
      List.mem_cons_of_mem _ h6, ?_⟩
    intro p hp
    rcases List.mem_cons.1 hp with h | h
    · subst h; push_neg at hfu; exact le_of_lt hfu
    · exact h7 p h
  · refine ⟨by linarith, by linarith, by push_neg at hu; linarith, by linarith, h5,
      List.mem_cons_of_mem _ h6, ?_⟩
    intro p hp
    rcases List.mem_cons.1 hp with h | h
    · subst h; push_neg at hfu; exact le_of_lt hfu
    · exact h7 p h

theorem optLoop_inv {lo hi : ℚ} {f : ℚ → ℚ} :
    ∀ (n : ℕ) (s : OptState), OptInv lo hi f s → OptInv lo hi f (optLoop f n s) := by
  intro n
  induction n with
  | zero => intro s h; exact h
  | succ n ih =>
      intro s h
      rw [optLoop]
      split_ifs
      · exact h
      · exact ih _ (optStep_inv h)

theorem optStep_evals_length (f : ℚ → ℚ) (s : OptState) :
    (optStep f s).evals.length = s.evals.length + 1 := by
  unfold optStep
  split_ifs <;> rfl

theorem optLoop_evals_length (f : ℚ → ℚ) :
    ∀ (n : ℕ) (s : OptState), (optLoop f n s).evals.length ≤ s.evals.length + n := by
  intro n
  induction n with
  | zero => intro s; exact le_refl _
  | succ n ih =>
      intro s
      rw [optLoop]
      split_ifs
      · omega
      · calc (optLoop f n (optStep f s)).evals.length
            ≤ (optStep f s).evals.length + n := ih _
          _ = s.evals.length + 1 + n := by rw [optStep_evals_length]
          _ = s.evals.length + (n + 1) := by omega

theorem minimize_scalar_bounded_inv (f : ℚ → ℚ) :
    OptInv 0 1 f (minimize_scalar_bounded f 0 1 10) := by
  unfold minimize_scalar_bounded
  apply optLoop_inv
  unfold OptInv
  refine ⟨le_refl _, by norm_num, by norm_num, le_refl _, rfl,
    List.mem_cons_self _ _, ?_⟩
  intro p hp
  rcases List.mem_cons.1 hp with h | h
  · subst h; exact le_refl _
  · simp at h

theorem minimize_scalar_bounded_evals_le (f : ℚ → ℚ) :
    (minimize_scalar_bounded f 0 1 10).evals.length ≤ 10 := by
  unfold minimize_scalar_bounded
  have := optLoop_evals_length f (10 - 1)
    { a := 0, b := 1, xf := 0 + (1 - 0) * (8 / 21), fx := f (0 + (1 - 0) * (8 / 21)),
      evals := [(0 + (1 - 0) * (8 / 21), f (0 + (1 - 0) * (8 / 21)))] }
  simpa using this

theorem drain_ge {every : ℕ} {avail : List ℕ} :
    ∀ (fuel target x : ℕ), x ∈ drain every avail target fuel → target ≤ x := by
  intro fuel
  induction fuel with
  | zero => intro target x hx; simp [drain] at hx
  | succ n ih =>
      intro target x hx
      rw [drain] at hx
      split_ifs at hx with ht
      · rcases List.mem_cons.1 hx with h | h
        · omega
        · have := ih (target + every) x h
          omega
      · simp at hx

theorem drain_index {every : ℕ} {avail : List ℕ} :
    ∀ (fuel target x : ℕ), x ∈ drain every avail target fuel →
      ∃ i, i < (drain every avail target fuel).length ∧ x = target + every * i := by
  intro fuel
  induction fuel with
  | zero => intro target x hx; simp [drain] at hx
  | succ n ih =>
      intro target x hx
      rw [drain] at hx ⊢
      split_ifs at hx ⊢ with ht
      · rcases List.mem_cons.1 hx with h | h
        · exact ⟨0, by simp, by omega⟩
        · obtain ⟨i, hi, hx⟩ := ih (target + every) x h
          refine ⟨i + 1, by simpa using hi, ?_⟩
          have : every * (i + 1) = every * i + every := Nat.mul_succ every i
          omega
      · simp at hx

theorem drain_lt_length {every : ℕ} (he : 1 ≤ every) {avail : List ℕ}
    {fuel target x : ℕ} (hx : x ∈ drain every avail target fuel) :
    x < target + every * (drain every avail target fuel).length := by
  obtain ⟨i, hi, rfl⟩ := drain_index fuel target x hx
  have h1 : every * (i + 1) ≤ every * (drain every avail target fuel).length :=
    Nat.mul_le_mul_left every hi
  have h2 : every * (i + 1) = every * i + every := Nat.mul_succ every i
  omega

theorem drain_sorted {every : ℕ} (he : 1 ≤ every) {avail : List ℕ} :
    ∀ (fuel target : ℕ), (drain every avail target fuel).Sorted (· < ·) := by
  intro fuel
  induction fuel with
  | zero => intro target; simp [drain]
  | succ n ih =>
      intro target
      rw [drain]
      split_ifs with ht
      · refine List.sorted_cons.2 ⟨?_, ih (target + every)⟩
        intro b hb
        have := drain_ge n (target + every) b hb
        omega
      · simp

theorem runDriver_ge {every : ℕ} :
    ∀ (arr avail : List ℕ) (target x : ℕ), x ∈ runDriver every arr avail target →
      target ≤ x := by
  intro arr
  induction arr with
  | nil => intro avail target x hx; simp [runDriver] at hx
  | cons a rest ih =>
      intro avail target x hx
      rw [runDriver] at hx
      rcases List.mem_append.1 hx with h | h
      · exact drain_ge _ target x h
      · have := ih (a :: avail) _ x h
        omega

theorem runDriver_sorted {every : ℕ} (he : 1 ≤ every) :
    ∀ (arr avail : List ℕ) (target : ℕ),
      (runDriver every arr avail target).Sorted (· < ·) := by
  intro arr
  induction arr with
  | nil => intro avail target; simp [runDriver]
  | cons a rest ih =>
      intro avail target
      rw [runDriver]
      refine List.pairwise_append.2 ⟨drain_sorted he _ _, ih _ _, ?_⟩
      intro x hx y hy
      have h1 := drain_lt_length he hx
      have h2 := runDriver_ge rest (a :: avail) _ y hy
      omega

theorem runDriver_nodup {every : ℕ} (he : 1 ≤ every) (arr avail : List ℕ) (target : ℕ) :
    (runDriver every arr avail target).Nodup := by
  have h := runDriver_sorted he arr avail target
  exact h.nodup

theorem countP_eq_one_of_nodup_of_mem {l : List ℕ} (hn : l.Nodup) {e : ℕ} (he : e ∈ l) :
    l.countP (fun x => x == e) = 1 := by
  induction l with
  | nil => simp at he
  | cons a t ih =>
      by_cases hae : a = e
      · subst hae
        have hz : t.countP (fun x => x == a) = 0 := by
          apply List.countP_eq_zero.2
          intro x hx
          have hxa : x ≠ a := fun h => (List.nodup_cons.1 hn).1 (h ▸ hx)
          simpa using hxa
        simp [List.countP_cons, hz]
      · have ht : e ∈ t := by
          rcases List.mem_cons.1 he with h | h
          · exact absurd h.symm hae
          · exact h
        have hone := ih (List.nodup_cons.1 hn).2 ht
        simp [List.countP_cons, hone, hae]

theorem foldl_accumAdd_eq (l : List DERComponents) :
    ∀ a : DERComponents, l.foldl accumAdd a =
      ⟨a.falseAlarm + (l.map DERComponents.falseAlarm).sum,
       a.missedDetection + (l.map DERComponents.missedDetection).sum,
       a.total + (l.map DERComponents.total).sum⟩ := by
  induction l with
  | nil => intro a; simp
  | cons c t ih =>
      intro a
      simp only [List.foldl_cons, ih, accumAdd, List.map_cons, List.sum_cons,
        DERComponents.mk.injEq]
      refine ⟨by ring, by ring, by ring⟩

theorem metricAccumulate_eq (l : List DERComponents) :
    metricAccumulate l =
      ⟨(l.map DERComponents.falseAlarm).sum, (l.map DERComponents.missedDetection).sum,
       (l.map DERComponents.total).sum⟩ := by
  unfold metricAccumulate accumZero
  rw [foldl_accumAdd_eq]
  simp

theorem aggregateDER_eq (l : List DERComponents) :
    aggregateDER l =
      ((l.map DERComponents.falseAlarm).sum + (l.map DERComponents.missedDetection).sum) /
        (l.map DERComponents.total).sum := by
  unfold aggregateDER metricAbs
  rw [metricAccumulate_eq]

/-- Claim C1: with `in_order=True`, `start=0`, `every=2`, when checkpoints for
epochs {0,1,2,3,4} become available in the order 2, 0, 4, 1, 3, the validate
driver processes exactly the epochs 0, 2, 4, and in that increasing order. -/
theorem epoch_watcher_in_order_scenario :
    runDriver 2 [2, 0, 4, 1, 3] [] 0 = [0, 2, 4] := by decide

/-- Claim C2: one call of the threshold optimizer as configured in
`validate_epoch` (`maxiter=10`) performs at most 10 evaluations of the
objective, terminates within that cap, and returns the best point found: the
returned pair was evaluated and no recorded evaluation has a smaller value. -/
theorem threshold_optimizer_eval_cap (f : ℚ → ℚ) :
    (minimize_scalar_bounded f 0 1 10).evals.length ≤ 10 ∧
    ((minimize_scalar_bounded f 0 1 10).xf, (minimize_scalar_bounded f 0 1 10).fx)
      ∈ (minimize_scalar_bounded f 0 1 10).evals ∧
    ∀ p ∈ (minimize_scalar_bounded f 0 1 10).evals,
      (minimize_scalar_bounded f 0 1 10).fx ≤ p.2 := by
  obtain ⟨-, -, -, -, -, h6, h7⟩ := minimize_scalar_bounded_inv f
  exact ⟨minimize_scalar_bounded_evals_le f, h6, h7⟩

/-- Claim C3: for every objective function, the threshold optimizer returns a
pair (threshold, value) with the value equal to the objective evaluated at the
returned threshold, and the returned threshold lies within [0, 1]. -/
theorem threshold_optimizer_returns_pair (f : ℚ → ℚ) :
    (minimize_scalar_bounded f 0 1 10).fx = f (minimize_scalar_bounded f 0 1 10).xf ∧
    0 ≤ (minimize_scalar_bounded f 0 1 10).xf ∧
    (minimize_scalar_bounded f 0 1 10).xf ≤ 1 := by
  obtain ⟨h1, h2, h3, h4, h5, -, -⟩ := minimize_scalar_bounded_inv f
  exact ⟨h5, by linarith, by linarith⟩

/-- Claim C4 (code bug): `apply` defaults a missing step to 0.25 × duration,
but then passes the literal `.25 * duration` — not the configured step — to
`SequenceLabeling`, so for `duration = 16/5` and a provided step of 1 the
output store's frame spacing is 4/5, not the configured 1.  (When step is
None the two coincide, which is why the bug is silent by default.) -/
theorem apply_ignores_configured_step :
    apply_configured_step (16 / 5) (some 1) = 1 ∧
    (apply (16 / 5) 2 (some 1)).window_step = 4 / 5 ∧
    (apply (16 / 5) 2 (some 1)).window_step ≠ apply_configured_step (16 / 5) (some 1) ∧
    apply_configured_step (16 / 5) none = (apply (16 / 5) 2 none).window_step := by
  refine ⟨rfl, by norm_num [apply], ?_, rfl⟩
  norm_num [apply, apply_configured_step]

/-- Claim C5: for every pipeline configuration, per-file scorer and file
collection, the aggregate scalar of the parallel evaluator is invariant under
every permutation of the file collection (exactly, over ℚ). -/
theorem parallel_evaluator_order_independent {α : Type}
    (scorer : PipelineParams → α → DERComponents) (p : PipelineParams)
    (files files' : List α) (h : files.Perm files') :
    aggregateDER (files.map (validate_helper_func scorer p)) =
      aggregateDER (files'.map (validate_helper_func scorer p)) := by
  have hm : (files.map (validate_helper_func scorer p)).Perm
      (files'.map (validate_helper_func scorer p)) := h.map _
  rw [aggregateDER_eq, aggregateDER_eq, (hm.map _).sum_eq, (hm.map _).sum_eq,
    (hm.map _).sum_eq]

/-- Witness for claim C5 at a concrete permuted pair of file lists. -/
theorem parallel_evaluator_order_independent_witness :
    aggregateDER (([1, 2, 3] : List ℕ).map
        (validate_helper_func (fun _ n => ⟨(n : ℚ), 1, 2⟩) (sadParams 0))) =
      aggregateDER (([3, 1, 2] : List ℕ).map
        (validate_helper_func (fun _ n => ⟨(n : ℚ), 1, 2⟩) (sadParams 0))) :=
  parallel_evaluator_order_independent (fun _ n => ⟨(n : ℚ), 1, 2⟩) (sadParams 0)
    [1, 2, 3] [3, 1, 2] (by decide)

/-- Claim C6: the aggregate scalar equals total errors (false alarm + missed
detection, summed across files) divided by the total reference duration — and
on a concrete two-file collection it differs from the average of per-file
rates, so the aggregation is not an average. -/
theorem detection_error_rate_ratio_not_average :
    (∀ l : List DERComponents,
      aggregateDER l =
        ((l.map DERComponents.falseAlarm).sum + (l.map DERComponents.missedDetection).sum) /
          (l.map DERComponents.total).sum) ∧
    aggregateDER [⟨1, 0, 1⟩, ⟨0, 0, 3⟩] ≠ averageRate [⟨1, 0, 1⟩, ⟨0, 0, 3⟩] := by
  refine ⟨aggregateDER_eq, ?_⟩
  norm_num [aggregateDER, metricAccumulate, metricAbs, accumAdd, accumZero, averageRate]

/-- Claim C7: each processed epoch yields exactly one validation report, and
every report consists of the epoch (its key), the metric name
"detection_error_rate", the minimize direction, a pipeline configuration
instantiated at some threshold, and the value of the objective at exactly
that threshold. -/
theorem validation_result_once_per_epoch {α : Type} (every start : ℕ) (h : 1 ≤ every)
    (arrivals : List ℕ) (scorer : ℕ → PipelineParams → α → DERComponents)
    (files : List α) :
    (∀ e ∈ runDriver every arrivals [] start,
      (sessionReports scorer files every start arrivals).countP (fun r => r.1 == e) = 1) ∧
    ∀ r ∈ sessionReports scorer files every start arrivals,
      ∃ t : ℚ, r.2 = ValidationResult.mk "detection_error_rate" true
        (fun_ (scorer r.1) files t) (sadParams t) := by
  constructor
  · intro e he
    unfold sessionReports
    rw [List.countP_map]
    exact countP_eq_one_of_nodup_of_mem (runDriver_nodup h arrivals [] start) he
  · intro r hr
    unfold sessionReports at hr
    obtain ⟨e, he, rfl⟩ := List.mem_map.1 hr
    obtain ⟨-, -, -, -, h5, -, -⟩ := minimize_scalar_bounded_inv (fun_ (scorer e) files)
    refine ⟨(minimize_scalar_bounded (fun_ (scorer e) files) 0 1 10).xf, ?_⟩
    have hval : validate_epoch (scorer e) files =
        ValidationResult.mk "detection_error_rate" true
          ((minimize_scalar_bounded (fun_ (scorer e) files) 0 1 10).fx)
          (sadParams (minimize_scalar_bounded (fun_ (scorer e) files) 0 1 10).xf) := rfl
    rw [hval, h5]

/-- Witness for claim C7: a concrete session with `every = 1` and one arrived
checkpoint for epoch 0 contains exactly one report for epoch 0. -/
theorem validation_result_once_per_epoch_witness :
    (sessionReports (fun _ _ _ => (⟨0, 0, 1⟩ : DERComponents)) ([] : List ℕ) 1 0 [0]).countP
      (fun r => r.1 == 0) = 1 :=
  (validation_result_once_per_epoch 1 0 (by decide) [0]
      (fun _ _ _ => ⟨0, 0, 1⟩) ([] : List ℕ)).1 0 (by decide)

/-- Claim C8: across one validation session the worker pool is created exactly
once (by `validate_init`), sized to the CPU count, and every parallel map of
every epoch and every optimizer iteration uses that same pool. -/
theorem worker_pool_created_once {α : Type} (cpu_count : ℕ)
    (scorer : ℕ → PipelineParams → α → DERComponents) (files : List α)
    (every start : ℕ) (arrivals : List ℕ) :
    (validateSessionEvents cpu_count scorer files every start arrivals).countP
        PoolEvent.isCreate = 1 ∧
    ∀ ev ∈ validateSessionEvents cpu_count scorer files every start arrivals,
      ev = PoolEvent.create cpu_count ∨ ev = PoolEvent.use (some cpu_count) := by
  constructor
  · unfold validateSessionEvents validate_init
    rw [List.countP_append]
    have h2 : (((runDriver every arrivals [] start).map
        (fun e => validateEpochPoolEvents ⟨some cpu_count⟩ (scorer e) files)).flatten).countP
        PoolEvent.isCreate = 0 := by
      apply List.countP_eq_zero.2
      intro ev hev
      obtain ⟨l, hl, hevl⟩ := List.mem_flatten.1 hev
      obtain ⟨e, he, rfl⟩ := List.mem_map.1 hl
      unfold validateEpochPoolEvents at hevl
      obtain ⟨q, hq, rfl⟩ := List.mem_map.1 hevl
      simp [PoolEvent.isCreate]
    simp [h2, PoolEvent.isCreate]
  · intro ev hev
    unfold validateSessionEvents validate_init at hev
    rcases List.mem_append.1 hev with h | h
    · left
      simpa using h
    · right
      obtain ⟨l, hl, hevl⟩ := List.mem_flatten.1 h
      obtain ⟨e, he, rfl⟩ := List.mem_map.1 hl
      unfold validateEpochPoolEvents at hevl
      obtain ⟨q, hq, rfl⟩ := List.mem_map.1 hevl
      rfl

/-- Claim C9: every pipeline configuration `validate_epoch` instantiates —
one per objective evaluation plus the final returned one — has offset equal
to onset and min_duration_on, min_duration_off, pad_onset, pad_offset all 0. -/
theorem pipeline_instantiations_onset_offset {α : Type}
    (scorer : PipelineParams → α → DERComponents) (files : List α) :
    ∀ p ∈ validate_epoch_instantiations scorer files,
      p.offset = p.onset ∧ p.min_duration_on = 0 ∧ p.min_duration_off = 0 ∧
        p.pad_onset = 0 ∧ p.pad_offset = 0 := by
  intro p hp
  unfold validate_epoch_instantiations at hp
  rcases List.mem_append.1 hp with h | h
  · obtain ⟨e, he, rfl⟩ := List.mem_map.1 h
    exact ⟨rfl, rfl, rfl, rfl, rfl⟩
  · rcases List.mem_singleton.1 h with rfl
    exact ⟨rfl, rfl, rfl, rfl, rfl⟩

/-- Witness for claim C9 at the final instantiation of a concrete
`validate_epoch` run (constant scorer, empty file list). -/
theorem pipeline_instantiations_onset_offset_witness :
    (sadParams (minimize_scalar_bounded
        (fun_ (fun _ _ => (⟨0, 0, 1⟩ : DERComponents)) ([] : List ℕ)) 0 1 10).xf).offset =
      (sadParams (minimize_scalar_bounded
        (fun_ (fun _ _ => (⟨0, 0, 1⟩ : DERComponents)) ([] : List ℕ)) 0 1 10).xf).onset :=
  (pipeline_instantiations_onset_offset (fun _ _ => ⟨0, 0, 1⟩) ([] : List ℕ) _
    (by unfold validate_epoch_instantiations
        exact List.mem_append_right _ (List.mem_singleton_self _))).1

/-- Claim C10: because each objective call builds a fresh metric accumulator,
the value returned for a threshold is independent of the incoming object
state, and a whole sequence of calls returns exactly the pure objective of
each threshold — no error accumulation carries over between candidates. -/
theorem fresh_metric_objective_history_independent {α : Type}
    (scorer : PipelineParams → α → DERComponents) (files : List α) :
    (∀ (st st' : FunCallState) (threshold : ℚ),
      (funCall scorer files st threshold).2 = (funCall scorer files st' threshold).2) ∧
    ∀ (st : FunCallState) (thresholds : List ℚ),
      runCalls scorer files st thresholds = thresholds.map (fun_ scorer files) := by
  refine ⟨fun _ _ _ => rfl, ?_⟩
  intro st ts
  induction ts generalizing st with
  | nil => rfl
  | cons t rest ih =>
      rw [runCalls, ih]
      rfl
